import Mathlib

/-!
# Verification of the genetic-algorithm optimizer (`src/optimizer.py`)

Shallow embedding of the `Optimizer` class.  Genomes are `Network` objects:
a parameter mapping (a Python dict, embedded as an insertion-ordered
association list) together with an optional `loss` attribute.  The ambient
`random` module is embedded as a pair of streams (one for `random.random()`
floats, one for the integer draws behind `random.choice` / `random.randint`)
read through a cursor, so that every theorem quantifying over the streams
quantifies over every possible outcome of the random source.

Two embeddings appear:
* a value-level one (`fitness`, `grade`, `breed`, `mutate`, `evolve`) where
  genomes are immutable values, used for the functional claims;
* a store-level one (`mutateS`, `breedS`, `evolveS`) in which genomes live in
  an explicit heap addressed by `Nat`, making Python's object identity and
  in-place mutation visible, used for the aliasing/frame claim.
-/

deriving instance DecidableEq for Except

namespace GA

/-- Python exceptions / spec-level failure modes that the optimizer code can
raise.  `EmptyPopulation` is the failure of `reduce` on an empty generator in
`grade`; `FitnessNotComputed` is reading `network.loss` before evaluation;
`ValueError` is `random.randint` on an empty range; `IndexError` is
`random.choice`/list indexing out of range; `KeyError` is a dict read at a
missing key. -/
inductive Err where
  | EmptyPopulation
  | FitnessNotComputed
  | ValueError
  | IndexError
  | KeyError
  deriving DecidableEq

/-- The random source: a stream of values for `random.random()` and a stream
of raw draws used for `random.choice`/`random.randint`. -/
structure Rng where
  floats : Nat → ℚ
  nats : Nat → Nat

/-- Cursor into the two streams of an `Rng`. -/
structure Cur where
  nf : Nat
  nn : Nat
  deriving DecidableEq

/-- `random.random()`: returns a value in `[0, 1)`.  The raw stream value is
mapped through `Int.fract` so that every stream yields a valid outcome and
every rational in `[0, 1)` is reachable. -/
def nextFloat (rng : Rng) (cur : Cur) : ℚ × Cur :=
  (Int.fract (rng.floats cur.nf), ⟨cur.nf + 1, cur.nn⟩)

/-- One raw integer draw from the random source. -/
def nextNat (rng : Rng) (cur : Cur) : Nat × Cur :=
  (rng.nats cur.nn, ⟨cur.nf, cur.nn + 1⟩)

/-- `random.choice(xs)`: uniform element of `xs`; raises `IndexError` on an
empty sequence.  The raw draw is reduced mod `xs.length`, so every index is
reachable and every draw is a valid outcome. -/
def pyChoice {α : Type} (xs : List α) (rng : Rng) (cur : Cur) :
    Except Err (α × Cur) :=
  match xs[(nextNat rng cur).1 % xs.length]? with
  | some x => .ok (x, (nextNat rng cur).2)
  | none => .error .IndexError

/-- `random.randint(0, n-1)`: uniform index below `n`; raises `ValueError`
when the range is empty (`n = 0`). -/
def pyRandint (n : Nat) (rng : Rng) (cur : Cur) : Except Err (Nat × Cur) :=
  if n = 0 then .error .ValueError
  else .ok ((nextNat rng cur).1 % n, (nextNat rng cur).2)

/-- `int(q)` on a Python float/number: truncation toward zero. -/
def pyInt (q : ℚ) : ℤ :=
  if 0 ≤ q then ⌊q⌋ else ⌈q⌉

variable {K V : Type}

/-- Dict read `d[k]`: value at the first (only) occurrence of `k`. -/
def lookupK (k : K) [DecidableEq K] : List (K × V) → Option V
  | [] => none
  | (k', v) :: rest => if k' = k then some v else lookupK k rest

/-- Dict write `d[k] = v`: overwrite in place if the key is present,
append otherwise (Python dict assignment semantics). -/
def setKey (k : K) (v : V) [DecidableEq K] : List (K × V) → List (K × V)
  | [] => [(k, v)]
  | (k', v') :: rest =>
      if k' = k then (k, v) :: rest else (k', v') :: setKey k v rest

/-- A `Network` object as the optimizer sees it: its parameter dict
`network` and its `loss` attribute.  Modelled from the spec: the `Network`
class itself is not under `src/`; per the spec a genome "carries an optional
scalar fitness/cost attribute, set only after evaluation", so `loss` is
`none` until the external evaluator has run. -/
structure Genome (K V : Type) where
  network : List (K × V)
  loss : Option ℚ
  deriving DecidableEq

/-- Modelled from the spec: `Network(nn_param_choices)` followed by
`network.create_set(child)` (the Genome Factory's
`create_from_mapping`) builds a fresh genome holding exactly the given
mapping, with no fitness computed yet. -/
def createSet (network : List (K × V)) : Genome K V :=
  { network := network, loss := none }

/-- The `Optimizer`'s configuration (constructor arguments of
`Optimizer.__init__`). -/
structure Optimizer (K V : Type) where
  nn_param_choices : List (K × List V)
  retain : ℚ
  random_select : ℚ
  mutate_chance : ℚ

/-- `list(self.nn_param_choices.keys())`. -/
def Optimizer.keys (o : Optimizer K V) : List K :=
  o.nn_param_choices.map Prod.fst

/-- `Optimizer.fitness`: `return network.loss`.  Modelled from the spec for
the unevaluated case: reading the fitness of a never-evaluated genome fails
with `FitnessNotComputed`. -/
def fitness (network : Genome K V) : Except Err ℚ :=
  match network.loss with
  | some c => .ok c
  | none => .error .FitnessNotComputed

/-- One step of `reduce(add, ...)` in `grade`: add the next genome's fitness
to the running sum, propagating the fitness failure. -/
def addFitness (acc : ℚ) (x : Genome K V) : Except Err ℚ :=
  match fitness x with
  | .error e => .error e
  | .ok fx => .ok (acc + fx)

/-- `Optimizer.grade`: `reduce(add, (self.fitness(n) for n in pop)) / len(pop)`.
`reduce` over the empty generator raises — an empty population fails with
`EmptyPopulation` — otherwise the fitness values are summed left to right and
divided by the population size. -/
def grade (_o : Optimizer K V) (pop : List (Genome K V)) : Except Err ℚ :=
  match pop with
  | [] => .error .EmptyPopulation
  | n :: rest =>
    match fitness n with
    | .error e => .error e
    | .ok f0 =>
      match rest.foldlM addFitness f0 with
      | .error e => .error e
      | .ok summed => .ok (summed / ((pop.length : ℚ)))

/-- `Optimizer.mutate`: choose a key uniformly from the parameter space,
overwrite its value with a uniform draw from that key's admissible list,
in the genome's own dict. -/
def mutate [DecidableEq K] (o : Optimizer K V) (network : Genome K V)
    (rng : Rng) (cur : Cur) : Except Err (Genome K V × Cur) :=
  match pyChoice o.keys rng cur with
  | .error e => .error e
  | .ok mc =>
    match lookupK mc.1 o.nn_param_choices with
    | none => .error .KeyError
    | some choices =>
      match pyChoice choices rng mc.2 with
      | .error e => .error e
      | .ok vc =>
        .ok ({ network with network := setKey mc.1 vc.1 network.network },
             vc.2)

/-- The inner `for param in self.nn_param_choices` loop of `breed`: build the
child dict by drawing, for each parameter in order, one of the two parents'
values at that parameter.  A parent dict missing a parameter raises
`KeyError`. -/
def crossChild [DecidableEq K] (mother father : List (K × V)) :
    List (K × List V) → List (K × V) → Rng → Cur →
    Except Err (List (K × V) × Cur)
  | [], child, _, cur => .ok (child, cur)
  | (param, _) :: rest, child, rng, cur =>
    match lookupK param mother, lookupK param father with
    | some mv, some fv =>
      match pyChoice [mv, fv] rng cur with
      | .error e => .error e
      | .ok vc => crossChild mother father rest (setKey param vc.1 child) rng vc.2
    | _, _ => .error .KeyError

/-- The `for _ in range(2)` loop of `breed`: produce `count` children, each a
freshly constructed genome from a crossover dict, independently mutated with
probability `mutate_chance`. -/
def breedChildren [DecidableEq K] (o : Optimizer K V)
    (mother father : Genome K V) :
    Nat → List (Genome K V) → Rng → Cur →
    Except Err (List (Genome K V) × Cur)
  | 0, children, _, cur => .ok (children, cur)
  | count + 1, children, rng, cur =>
    match crossChild mother.network father.network o.nn_param_choices [] rng cur with
    | .error e => .error e
    | .ok cc =>
      match (if o.mutate_chance > (nextFloat rng cc.2).1
             then mutate o (createSet cc.1) rng (nextFloat rng cc.2).2
             else .ok (createSet cc.1, (nextFloat rng cc.2).2)) with
      | .error e => .error e
      | .ok nc =>
        breedChildren o mother father count (children ++ [nc.1]) rng nc.2

/-- `Optimizer.breed`: make two children from two parents. -/
def breed [DecidableEq K] (o : Optimizer K V) (mother father : Genome K V)
    (rng : Rng) (cur : Cur) : Except Err (List (Genome K V) × Cur) :=
  breedChildren o mother father 2 [] rng cur

/-- Comparison of `(fitness, network)` pairs by the fitness component:
the `key=lambda x: x[0]` of the `sorted` call in `evolve`. -/
def keyLe {α : Type} (x y : ℚ × α) : Prop := x.1 ≤ y.1

instance {α : Type} : DecidableRel (keyLe (α := α)) :=
  fun x y => inferInstanceAs (Decidable (x.1 ≤ y.1))

instance {α : Type} : IsTotal (ℚ × α) keyLe := ⟨fun a b => le_total a.1 b.1⟩

instance {α : Type} : IsTrans (ℚ × α) keyLe := ⟨fun _ _ _ => le_trans⟩

/-- The list comprehension
`[(self.fitness(network), network) for network in pop]`: pairs each element
with its fitness, failing on the first genome whose loss was never
computed. -/
def gradedOf {α : Type} (lossOf : α → Except Err ℚ) :
    List α → Except Err (List (ℚ × α))
  | [] => .ok []
  | n :: rest =>
    match lossOf n with
    | .error e => .error e
    | .ok f =>
      match gradedOf lossOf rest with
      | .error e => .error e
      | .ok tail => .ok ((f, n) :: tail)

/-- `[x[1] for x in sorted(graded, key=lambda x: x[0])]`: stable sort of the
pairs ascending by fitness, then drop the keys.  Python's `sorted` is stable,
as is `List.insertionSort`. -/
def sortedSnd {α : Type} (pairs : List (ℚ × α)) : List α :=
  (List.insertionSort keyLe pairs).map Prod.snd

/-- `int(len(graded) * self.retain)`. -/
def retainLength (o : Optimizer K V) (n : Nat) : Nat :=
  (pyInt ((n : ℚ) * o.retain)).toNat

/-- The `for individual in graded[retain_length:]` loop: independently keep
each non-elite genome with probability `random_select`, appending it to the
parent list. -/
def randomSelectAux {α : Type} (sel : ℚ) :
    List α → List α → Rng → Cur → List α × Cur
  | [], parents, _, cur => (parents, cur)
  | x :: rest, parents, rng, cur =>
    randomSelectAux sel rest
      (if sel > (nextFloat rng cur).1 then parents ++ [x] else parents)
      rng (nextFloat rng cur).2

/-- The `for baby in babies` loop: append each baby only while the child
list is still below `desired_length`. -/
def appendBabies {α : Type} (desired : Nat) :
    List α → List α → List α
  | children, [] => children
  | children, b :: bs =>
    appendBabies desired
      (if children.length < desired then children ++ [b] else children) bs

/-- The `while len(children) < desired_length` loop of `evolve`, with an
explicit fuel bound on the number of iterations: draw two parent indices,
redraw if equal, breed, and append the babies under the length guard.
`.ok none` means the loop did not terminate within `fuel` iterations. -/
def breedLoop [DecidableEq K] (o : Optimizer K V)
    (parents : List (Genome K V)) (desired : Nat) (rng : Rng) :
    Nat → List (Genome K V) → Cur →
    Except Err (Option (List (Genome K V) × Cur))
  | 0, children, cur =>
    if children.length < desired then .ok none else .ok (some (children, cur))
  | fuel + 1, children, cur =>
    if children.length < desired then
      match pyRandint parents.length rng cur with
      | .error e => .error e
      | .ok mc =>
        match pyRandint parents.length rng mc.2 with
        | .error e => .error e
        | .ok fc =>
          if mc.1 ≠ fc.1 then
            match parents[mc.1]?, parents[fc.1]? with
            | some male, some female =>
              match breed o male female rng fc.2 with
              | .error e => .error e
              | .ok bc =>
                breedLoop o parents desired rng fuel
                  (appendBabies desired children bc.1) bc.2
            | _, _ => .error .IndexError
          else breedLoop o parents desired rng fuel children fc.2
    else .ok (some (children, cur))

/-- Lines 112–120 of `evolve`: the elite parents
`graded[:retain_length]` (with `retain_length = int(len(graded) * retain)`)
extended by the random-selection pass over `graded[retain_length:]`. -/
def selectedParents {α : Type} (o : Optimizer K V) (graded : List α)
    (rng : Rng) (cur : Cur) : List α × Cur :=
  randomSelectAux o.random_select
    (graded.drop (retainLength o graded.length))
    (graded.take (retainLength o graded.length)) rng cur

/-- `Optimizer.evolve`: rank the population by fitness ascending, keep the
top `retain_length` genomes plus a random selection of the rest as parents,
then breed children until the population size is restored.  `.ok none`
means the breeding loop exceeded its fuel (it would run forever as fuel
grows without bound). -/
def evolve [DecidableEq K] (o : Optimizer K V) (fuel : Nat)
    (pop : List (Genome K V)) (rng : Rng) (cur : Cur) :
    Except Err (Option (List (Genome K V) × Cur)) :=
  match gradedOf fitness pop with
  | .error e => .error e
  | .ok pairs =>
    match breedLoop o (selectedParents o (sortedSnd pairs) rng cur).1
        (pop.length - (selectedParents o (sortedSnd pairs) rng cur).1.length)
        rng fuel [] (selectedParents o (sortedSnd pairs) rng cur).2 with
    | .error e => .error e
    | .ok none => .ok none
    | .ok (some cc) =>
      .ok (some ((selectedParents o (sortedSnd pairs) rng cur).1 ++ cc.1, cc.2))

/-- The computed cost of an evaluated genome (its `loss`; `0` as a formal
default for never-evaluated genomes, which the theorems rule out). -/
def cost (g : Genome K V) : ℚ := g.loss.getD 0

/-! ## Store-level embedding

Python genomes are heap objects: a parent retained into the next generation
is the *same* object, and `mutate` writes `network.network[mutation]` in
place.  To state the aliasing claim we re-run `breed`/`evolve` over an
explicit heap: `Store.mem` maps addresses to genomes and `Store.next` is the
allocation watermark (every live object sits below it; `Network(...)`
allocates at the watermark). -/

/-- Heap of genome objects addressed by `Nat`. -/
structure Store (K V : Type) where
  mem : Nat → Genome K V
  next : Nat

/-- `Optimizer.mutate` acting on a heap object: reads the genome at `i`,
overwrites one parameter in its dict, and writes it back at the same
address (in-place update of the same object). -/
def mutateS [DecidableEq K] (o : Optimizer K V) (i : Nat) (st : Store K V)
    (rng : Rng) (cur : Cur) : Except Err (Store K V × Cur) :=
  match mutate o (st.mem i) rng cur with
  | .error e => .error e
  | .ok gc =>
    .ok ({ st with mem := Function.update st.mem i gc.1 }, gc.2)

/-- `Network(self.nn_param_choices)` + `network.create_set(child)` over the
heap: allocate a fresh object at the watermark holding the given mapping. -/
def allocChild (st : Store K V) (network : List (K × V)) : Store K V :=
  { mem := Function.update st.mem st.next (createSet network),
    next := st.next + 1 }

/-- The `for _ in range(2)` loop of `breed` over the heap: each child is a
freshly allocated object (address `st.next`), and the optional mutation
writes to that fresh address only. -/
def breedChildrenS [DecidableEq K] (o : Optimizer K V) (mi fi : Nat) :
    Nat → List Nat → Store K V → Rng → Cur →
    Except Err (List Nat × Store K V × Cur)
  | 0, ids, st, _, cur => .ok (ids, st, cur)
  | count + 1, ids, st, rng, cur =>
    match crossChild (st.mem mi).network (st.mem fi).network
        o.nn_param_choices [] rng cur with
    | .error e => .error e
    | .ok cc =>
      match (if o.mutate_chance > (nextFloat rng cc.2).1
             then mutateS o st.next (allocChild st cc.1) rng (nextFloat rng cc.2).2
             else .ok (allocChild st cc.1, (nextFloat rng cc.2).2)) with
      | .error e => .error e
      | .ok sc =>
        breedChildrenS o mi fi count (ids ++ [st.next]) sc.1 rng sc.2

/-- `Optimizer.breed` over the heap. -/
def breedS [DecidableEq K] (o : Optimizer K V) (mi fi : Nat) (st : Store K V)
    (rng : Rng) (cur : Cur) : Except Err (List Nat × Store K V × Cur) :=
  breedChildrenS o mi fi 2 [] st rng cur

/-- The breeding `while` loop of `evolve` over the heap. -/
def breedLoopS [DecidableEq K] (o : Optimizer K V)
    (parents : List Nat) (desired : Nat) (rng : Rng) :
    Nat → List Nat → Store K V → Cur →
    Except Err (Option (List Nat × Store K V × Cur))
  | 0, children, st, cur =>
    if children.length < desired then .ok none
    else .ok (some (children, st, cur))
  | fuel + 1, children, st, cur =>
    if children.length < desired then
      match pyRandint parents.length rng cur with
      | .error e => .error e
      | .ok mc =>
        match pyRandint parents.length rng mc.2 with
        | .error e => .error e
        | .ok fc =>
          if mc.1 ≠ fc.1 then
            match parents[mc.1]?, parents[fc.1]? with
            | some male, some female =>
              match breedS o male female st rng fc.2 with
              | .error e => .error e
              | .ok bc =>
                breedLoopS o parents desired rng fuel
                  (appendBabies desired children bc.1) bc.2.1 bc.2.2
            | _, _ => .error .IndexError
          else breedLoopS o parents desired rng fuel children st fc.2
    else .ok (some (children, st, cur))

/-- `Optimizer.evolve` over the heap: the population is a list of object
addresses; selection shuffles addresses around, breeding allocates fresh
objects. -/
def evolveS [DecidableEq K] (o : Optimizer K V) (fuel : Nat)
    (popIds : List Nat) (st : Store K V) (rng : Rng) (cur : Cur) :
    Except Err (Option (List Nat × Store K V × Cur)) :=
  match gradedOf (fun i => fitness (st.mem i)) popIds with
  | .error e => .error e
  | .ok pairs =>
    match breedLoopS o (selectedParents o (sortedSnd pairs) rng cur).1
        (popIds.length - (selectedParents o (sortedSnd pairs) rng cur).1.length)
        rng fuel [] st (selectedParents o (sortedSnd pairs) rng cur).2 with
    | .error e => .error e
    | .ok none => .ok none
    | .ok (some cc) =>
      .ok (some ((selectedParents o (sortedSnd pairs) rng cur).1 ++ cc.1,
                 cc.2.1, cc.2.2))

/-! ## Concrete instances used by counterexamples and witnesses -/

/-- Parameter space with one key `0` whose admissible values are
`[10, 20, 30]`; mutation always fires (`mutate_chance = 1`). -/
def o5 : Optimizer Nat Int :=
  { nn_param_choices := [(0, [10, 20, 30])], retain := 4/10,
    random_select := 1/10, mutate_chance := 1 }

def gA : Genome Nat Int := { network := [(0, 10)], loss := some 0 }

def gB : Genome Nat Int := { network := [(0, 20)], loss := some 0 }

/-- A random source whose integer draws always read `2`: crossover picks the
mother's value, mutation picks key `0` and the third admissible value
`30`. -/
def rng5 : Rng := { floats := fun _ => 0, nats := fun _ => 2 }

/-- Parameter space with one key `0` and admissible values `[5, 7]`. -/
def o6 : Optimizer Nat Int :=
  { nn_param_choices := [(0, [5, 7])], retain := 4/10,
    random_select := 1/10, mutate_chance := 2/10 }

def g6 : Genome Nat Int := { network := [(0, 5)], loss := some 1 }

/-- Integer draws always read `1`: mutation picks key `0` (the only key) and
the admissible value `7`. -/
def rng6 : Rng := { floats := fun _ => 0, nats := fun _ => 1 }

/-- `retain = 0.5`, `random_select = 0`: on a population of 2 this selects a
single parent, so the breeding loop can never draw two distinct indices. -/
def o1 : Optimizer Nat Int :=
  { nn_param_choices := [(0, [1, 2])], retain := 1/2,
    random_select := 0, mutate_chance := 2/10 }

def g1 : Genome Nat Int := { network := [(0, 1)], loss := some 1 }

def g2 : Genome Nat Int := { network := [(0, 2)], loss := some 2 }

def g3 : Genome Nat Int := { network := [(0, 1)], loss := some 3 }

def g4 : Genome Nat Int := { network := [(0, 2)], loss := some 4 }

/-- `retain = 0.5`, `random_select = 0`, `mutate_chance = 0`: on a population
of 4 this selects 2 parents and breeds 2 children. -/
def o2 : Optimizer Nat Int :=
  { nn_param_choices := [(0, [1, 2])], retain := 1/2,
    random_select := 0, mutate_chance := 0 }

/-- Integer draws alternate `0, 1, 0, 1, …`, so the two parent indices drawn
by the breeding loop are distinct at once. -/
def rng2 : Rng := { floats := fun _ => 0, nats := fun i => i % 2 }

/-- `retain = 1`: the whole (sorted) population is retained as parents and no
children are bred. -/
def o7 : Optimizer Nat Int :=
  { nn_param_choices := [(0, [1, 2])], retain := 1,
    random_select := 0, mutate_chance := 2/10 }

/-- A heap holding `g2` at address `0` and `g1` everywhere else, with
allocation watermark `2` (addresses `0` and `1` are the live input
population). -/
def st10 : Store Nat Int :=
  { mem := fun i => if i = 0 then g2 else g1, next := 2 }

/-- The per-child property behind the amended crossover claim: either the
child is a pure crossover of the two parents on every parameter key, or it
was mutated at a single key — whose value then comes from that key's
admissible list — and is a pure crossover everywhere else. -/
def ChildOk [DecidableEq K] (o : Optimizer K V) (A B g : Genome K V) : Prop :=
  (∀ k ∈ o.keys, lookupK k g.network = lookupK k A.network ∨
                 lookupK k g.network = lookupK k B.network) ∨
  (∃ k0 ∈ o.keys, ∃ cs, lookupK k0 o.nn_param_choices = some cs ∧
    (∃ v ∈ cs, lookupK k0 g.network = some v) ∧
    ∀ k ∈ o.keys, k ≠ k0 →
      lookupK k g.network = lookupK k A.network ∨
      lookupK k g.network = lookupK k B.network)

/-! ## Helper lemmas -/


theorem lookupK_setKey_self [DecidableEq K] (k : K) (v : V) :
    ∀ l : List (K × V), lookupK k (setKey k v l) = some v
  | [] => by simp [setKey, lookupK]
  | (k', v') :: rest => by
    by_cases h : k' = k
    · simp [setKey, h, lookupK]
    · simp [setKey, h, lookupK, lookupK_setKey_self k v rest]

theorem lookupK_setKey_ne [DecidableEq K] (k k' : K) (v : V) (hne : k' ≠ k) :
    ∀ l : List (K × V), lookupK k' (setKey k v l) = lookupK k' l
  | [] => by
    have : ¬ k = k' := fun h => hne h.symm
    simp [setKey, lookupK, this]
  | (k'', v'') :: rest => by
    by_cases h : k'' = k
    · subst h
      have : ¬ k'' = k' := fun h => hne h.symm
      simp [setKey, lookupK, this]
    · by_cases h2 : k'' = k'
      · subst h2
        simp [setKey, h, hne, lookupK]
      · simp [setKey, h, lookupK, h2, lookupK_setKey_ne k k' v hne rest]

theorem pyChoice_ok_mem {α : Type} {xs : List α} {rng : Rng} {cur cur' : Cur}
    {x : α} (h : pyChoice xs rng cur = .ok (x, cur')) : x ∈ xs := by
  unfold pyChoice at h
  split at h
  · injection h with h'
    injection h' with h1 h2
    subst h1
    exact List.getElem?_mem (by assumption)
  · exact Except.noConfusion h

/-- What one call to `mutate` does: exactly one key of the parameter space is
written, the written value comes from that key's admissible list, the loss
attribute and every other key are untouched. -/
theorem mutate_spec [DecidableEq K] {o : Optimizer K V} {g g' : Genome K V}
    {rng : Rng} {cur cur' : Cur}
    (h : mutate o g rng cur = .ok (g', cur')) :
    ∃ k ∈ o.keys, ∃ cs, lookupK k o.nn_param_choices = some cs ∧
      ∃ v ∈ cs, lookupK k g'.network = some v ∧ g'.loss = g.loss ∧
        ∀ k', k' ≠ k → lookupK k' g'.network = lookupK k' g.network := by
  unfold mutate at h
  split at h
  · exact Except.noConfusion h
  case h_2 mc hmc =>
    split at h
    · exact Except.noConfusion h
    case h_2 cs hcs =>
      split at h
      · exact Except.noConfusion h
      case h_2 vc hvc =>
        simp only [Except.ok.injEq, Prod.mk.injEq] at h
        obtain ⟨hg, -⟩ := h
        refine ⟨mc.1, pyChoice_ok_mem hmc, cs, hcs, vc.1, pyChoice_ok_mem hvc,
          ?_, ?_, ?_⟩
        · rw [← hg]
          exact lookupK_setKey_self mc.1 vc.1 g.network
        · rw [← hg]
        · intro k' hk'
          rw [← hg]
          exact lookupK_setKey_ne mc.1 k' vc.1 hk' g.network

/-- What the child-building loop of `breed` guarantees: keys of the
parameter space carry one of the two parents' values, all other keys are
whatever the accumulator already held. -/
theorem crossChild_ok [DecidableEq K] (m f : List (K × V)) :
    ∀ (ps : List (K × List V)) (child0 : List (K × V)) (rng : Rng) (cur : Cur)
      (child : List (K × V)) (cur' : Cur),
      crossChild m f ps child0 rng cur = .ok (child, cur') →
      ∀ k, (k ∈ ps.map Prod.fst ∧
              (lookupK k child = lookupK k m ∨ lookupK k child = lookupK k f)) ∨
           (k ∉ ps.map Prod.fst ∧ lookupK k child = lookupK k child0)
  | [], child0, rng, cur, child, cur', h, k => by
    simp only [crossChild, Except.ok.injEq, Prod.mk.injEq] at h
    exact Or.inr ⟨by simp, by rw [h.1]⟩
  | (param, cs) :: rest, child0, rng, cur, child, cur', h, k => by
    unfold crossChild at h
    split at h
    case h_2 => exact Except.noConfusion h
    case h_1 mv fv hm hf =>
      split at h
      · exact Except.noConfusion h
      case h_2 vc hvc =>
        have ih := crossChild_ok m f rest (setKey param vc.1 child0) rng vc.2
          child cur' h
        by_cases hk : k ∈ rest.map Prod.fst
        · rcases ih k with ⟨-, hv⟩ | ⟨hk', -⟩
          · exact Or.inl ⟨by simp [hk], hv⟩
          · exact absurd hk hk'
        · rcases ih k with ⟨hk', -⟩ | ⟨-, hv⟩
          · exact absurd hk' hk
          · by_cases hkp : k = param
            · subst hkp
              refine Or.inl ⟨by simp, ?_⟩
              rw [hv, lookupK_setKey_self]
              have hmem : vc.1 ∈ [mv, fv] := pyChoice_ok_mem hvc
              simp only [List.mem_cons, List.not_mem_nil, or_false,
                List.mem_singleton] at hmem
              rcases hmem with h1 | h1
              · exact Or.inl (by rw [h1, hm])
              · exact Or.inr (by rw [h1, hf])
            · refine Or.inr ⟨by simp [hk, hkp], ?_⟩
              rw [hv, lookupK_setKey_ne param k vc.1 hkp]

theorem breedChildren_ok [DecidableEq K] (o : Optimizer K V)
    (A B : Genome K V) :
    ∀ (count : Nat) (acc : List (Genome K V)) (rng : Rng) (cur : Cur)
      (out : List (Genome K V) × Cur)
      (h : breedChildren o A B count acc rng cur = .ok out),
      out.1.length = acc.length + count ∧
      ∀ g ∈ out.1, g ∈ acc ∨ ChildOk o A B g
  | 0, acc, rng, cur, out, h => by
    simp only [breedChildren, Except.ok.injEq] at h
    subst h
    exact ⟨rfl, fun g hg => Or.inl hg⟩
  | count + 1, acc, rng, cur, out, h => by
    unfold breedChildren at h
    split at h
    · exact Except.noConfusion h
    case h_2 cc hcc =>
      split at h
      · exact Except.noConfusion h
      case h_2 nc hnc =>
        obtain ⟨hlen, hmem⟩ :=
          breedChildren_ok o A B count (acc ++ [nc.1]) rng nc.2 out h
        have hchild : ChildOk o A B nc.1 := by
          have hcross := crossChild_ok A.network B.network o.nn_param_choices
            [] rng cur cc.1 cc.2 hcc
          have hbase : ∀ k ∈ o.keys,
              lookupK k cc.1 = lookupK k A.network ∨
              lookupK k cc.1 = lookupK k B.network := by
            intro k hk
            rcases hcross k with ⟨-, hv⟩ | ⟨hk', -⟩
            · exact hv
            · exact absurd hk hk'
          split at hnc
          · -- mutation branch
            obtain ⟨k0, hk0, cs, hcs, v, hv, hvset, -, hframe⟩ :=
              mutate_spec hnc
            refine Or.inr ⟨k0, hk0, cs, hcs, ⟨v, hv, hvset⟩, ?_⟩
            intro k hk hkne
            rw [hframe k hkne]
            exact hbase k hk
          · -- no mutation
            simp only [Except.ok.injEq] at hnc
            rw [← hnc]
            exact Or.inl hbase
        constructor
        · rw [hlen]
          simp only [List.length_append, List.length_singleton]
          omega
        · intro g hg
          rcases hmem g hg with hacc | hok
          · rcases List.mem_append.mp hacc with h1 | h1
            · exact Or.inl h1
            · rw [List.mem_singleton.mp h1]
              exact Or.inr hchild
          · exact Or.inr hok

theorem foldlM_addFitness :
    ∀ (rest : List (Genome K V)) (ls : List ℚ),
      rest.map Genome.loss = ls.map some →
      ∀ a : ℚ, rest.foldlM addFitness a = .ok (a + ls.sum) := by
  intro rest
  induction rest with
  | nil =>
    intro ls h a
    have hls : ls = [] := by
      rcases ls with _ | ⟨l0, ls'⟩
      · rfl
      · simp at h
    subst hls
    simp only [List.foldlM_nil, List.sum_nil, add_zero]
    rfl
  | cons g rest ih =>
    intro ls h a
    rcases ls with _ | ⟨l0, ls'⟩
    · simp at h
    · simp only [List.map_cons, List.cons.injEq] at h
      obtain ⟨h0, h1⟩ := h
      have hstep : addFitness a g = .ok (a + l0) := by
        simp [addFitness, fitness, h0]
      calc (g :: rest).foldlM addFitness a
          = rest.foldlM addFitness (a + l0) := by
            simp only [List.foldlM_cons, hstep]
            rfl
        _ = .ok (a + (l0 :: ls').sum) := by
            rw [ih ls' h1 (a + l0), List.sum_cons, add_assoc]

theorem fitness_ok_iff (g : Genome K V) (c : ℚ) :
    fitness g = .ok c ↔ g.loss = some c := by
  cases hg : g.loss <;> simp [fitness, hg]

theorem gradedOf_ok {α : Type} (lossOf : α → Except Err ℚ) :
    ∀ (l : List α) (pairs : List (ℚ × α)),
      gradedOf lossOf l = .ok pairs →
      pairs.map Prod.snd = l ∧ ∀ p ∈ pairs, lossOf p.2 = .ok p.1
  | [], pairs, h => by
    simp only [gradedOf, Except.ok.injEq] at h
    subst h
    exact ⟨rfl, by simp⟩
  | n :: rest, pairs, h => by
    unfold gradedOf at h
    split at h
    · exact Except.noConfusion h
    case h_2 f hf =>
      split at h
      · exact Except.noConfusion h
      case h_2 tail htail =>
        obtain ⟨h1, h2⟩ := gradedOf_ok lossOf rest tail htail
        simp only [Except.ok.injEq] at h
        subst h
        constructor
        · simp [h1]
        · intro p hp
          rcases List.mem_cons.mp hp with h3 | h3
          · rw [h3]
            exact hf
          · exact h2 p h3

theorem sortedSnd_perm {α : Type} (pairs : List (ℚ × α)) :
    (sortedSnd pairs).Perm (pairs.map Prod.snd) :=
  (List.perm_insertionSort keyLe pairs).map Prod.snd

theorem sortedSnd_length {α : Type} (pairs : List (ℚ × α)) :
    (sortedSnd pairs).length = pairs.length := by
  rw [(sortedSnd_perm pairs).length_eq, List.length_map]

theorem sortedSnd_pairwise_cost (pairs : List (ℚ × Genome K V))
    (hp : ∀ p ∈ pairs, p.2.loss = some p.1) :
    (sortedSnd pairs).Pairwise (fun a b => cost a ≤ cost b) := by
  have hsorted : (List.insertionSort keyLe pairs).Pairwise keyLe :=
    List.sorted_insertionSort keyLe pairs
  have hmem : ∀ p ∈ List.insertionSort keyLe pairs, p.2.loss = some p.1 := by
    intro p hp'
    exact hp p (by simpa using hp')
  rw [sortedSnd, List.pairwise_map]
  refine hsorted.imp_of_mem ?_
  intro a b ha hb hab
  have h1 := hmem a ha
  have h2 := hmem b hb
  simp only [cost, h1, h2, Option.getD_some]
  exact hab

theorem randomSelectAux_zero {α : Type} :
    ∀ (rest parents : List α) (rng : Rng) (cur : Cur),
      randomSelectAux 0 rest parents rng cur =
        (parents, ⟨cur.nf + rest.length, cur.nn⟩)
  | [], parents, rng, cur => by simp [randomSelectAux]
  | x :: rest, parents, rng, cur => by
    have hnot : ¬ ((0:ℚ) > (nextFloat rng cur).1) :=
      not_lt.mpr (Int.fract_nonneg _)
    rw [randomSelectAux, if_neg hnot,
      randomSelectAux_zero rest parents rng (nextFloat rng cur).2]
    simp only [nextFloat, List.length_cons, Prod.mk.injEq, Cur.mk.injEq,
      true_and, and_true]
    omega

theorem randomSelectAux_length_le {α : Type} (sel : ℚ) :
    ∀ (rest parents : List α) (rng : Rng) (cur : Cur),
      (randomSelectAux sel rest parents rng cur).1.length ≤
        parents.length + rest.length
  | [], parents, rng, cur => by simp [randomSelectAux]
  | x :: rest, parents, rng, cur => by
    rw [randomSelectAux]
    split
    · have := randomSelectAux_length_le sel rest (parents ++ [x]) rng
        (nextFloat rng cur).2
      simp only [List.length_append, List.length_singleton, List.length_nil,
        List.length_cons] at this ⊢
      omega
    · have := randomSelectAux_length_le sel rest parents rng
        (nextFloat rng cur).2
      simp only [List.length_cons]
      omega

theorem randomSelectAux_mem {α : Type} (sel : ℚ) :
    ∀ (rest parents : List α) (rng : Rng) (cur : Cur) (y : α),
      y ∈ (randomSelectAux sel rest parents rng cur).1 →
      y ∈ parents ∨ y ∈ rest
  | [], parents, rng, cur, y, h => by
    simp only [randomSelectAux] at h
    exact Or.inl h
  | x :: rest, parents, rng, cur, y, h => by
    rw [randomSelectAux] at h
    split at h
    · rcases randomSelectAux_mem sel rest (parents ++ [x]) rng
        (nextFloat rng cur).2 y h with h1 | h1
      · rcases List.mem_append.mp h1 with h2 | h2
        · exact Or.inl h2
        · exact Or.inr (by simp [List.mem_singleton.mp h2])
      · exact Or.inr (List.mem_cons_of_mem x h1)
    · rcases randomSelectAux_mem sel rest parents rng
        (nextFloat rng cur).2 y h with h1 | h1
      · exact Or.inl h1
      · exact Or.inr (List.mem_cons_of_mem x h1)

theorem appendBabies_length_le {α : Type} (desired : Nat) :
    ∀ (babies children : List α), children.length ≤ desired →
      (appendBabies desired children babies).length ≤ desired
  | [], children, h => h
  | b :: bs, children, h => by
    rw [appendBabies]
    split
    · exact appendBabies_length_le desired bs _
        (by simp only [List.length_append, List.length_singleton]; omega)
    · exact appendBabies_length_le desired bs _ h

theorem appendBabies_mem {α : Type} (desired : Nat) :
    ∀ (babies children : List α) (y : α),
      y ∈ appendBabies desired children babies →
      y ∈ children ∨ y ∈ babies
  | [], children, y, h => Or.inl h
  | b :: bs, children, y, h => by
    rw [appendBabies] at h
    rcases appendBabies_mem desired bs _ y h with h1 | h1
    · split at h1
      · rcases List.mem_append.mp h1 with h2 | h2
        · exact Or.inl h2
        · exact Or.inr (by simp [List.mem_singleton.mp h2])
      · exact Or.inl h1
    · exact Or.inr (List.mem_cons_of_mem b h1)

theorem breedLoop_some_length [DecidableEq K] (o : Optimizer K V)
    (parents : List (Genome K V)) (desired : Nat) (rng : Rng) :
    ∀ (fuel : Nat) (children : List (Genome K V)) (cur : Cur)
      (res : List (Genome K V)) (cur' : Cur),
      children.length ≤ desired →
      breedLoop o parents desired rng fuel children cur =
        .ok (some (res, cur')) →
      res.length = desired
  | 0, children, cur, res, cur', hle, h => by
    rw [breedLoop] at h
    split at h
    · exact Option.noConfusion (Except.ok.inj h)
    case isFalse hnlt =>
      have h2 := Option.some.inj (Except.ok.inj h)
      rw [Prod.mk.injEq] at h2
      rw [← h2.1]
      omega
  | fuel + 1, children, cur, res, cur', hle, h => by
    rw [breedLoop] at h
    split at h
    case isTrue hlt =>
      split at h
      · exact Except.noConfusion h
      case h_2 mc hmc =>
        split at h
        · exact Except.noConfusion h
        case h_2 fc hfc =>
          split at h
          case isTrue hne =>
            split at h
            case h_1 male female hm hf =>
              split at h
              · exact Except.noConfusion h
              case h_2 bc hbc =>
                exact breedLoop_some_length o parents desired rng fuel _ _
                  res cur' (appendBabies_length_le desired bc.1 children hle) h
            all_goals exact Except.noConfusion h
          case isFalse =>
            exact breedLoop_some_length o parents desired rng fuel children _
              res cur' hle h
    case isFalse hnlt =>
      have h2 := Option.some.inj (Except.ok.inj h)
      rw [Prod.mk.injEq] at h2
      rw [← h2.1]
      omega

/-- When the selected parent list is a single genome, every iteration of the
breeding loop draws `male = female = 0` (`randint(0, 0)` twice), so the loop
makes no progress and exhausts any fuel bound. -/
theorem breedLoop_single_parent [DecidableEq K] (o : Optimizer K V)
    (g : Genome K V) (desired : Nat) (rng : Rng) :
    ∀ (fuel : Nat) (children : List (Genome K V)) (cur : Cur),
      children.length < desired →
      breedLoop o [g] desired rng fuel children cur = .ok none
  | 0, children, cur, hlt => by
    rw [breedLoop, if_pos hlt]
  | fuel + 1, children, cur, hlt => by
    rw [breedLoop, if_pos hlt]
    have h1 : ∀ c : Cur, pyRandint ([g] : List (Genome K V)).length rng c =
        .ok (0, (nextNat rng c).2) := by
      intro c
      simp [pyRandint, Nat.mod_one]
    simp only [h1]
    rw [if_neg (fun h => h rfl)]
    exact breedLoop_single_parent o g desired rng fuel children _ hlt

/-- Unfolding `evolve` once the fitness comprehension has succeeded. -/
theorem evolve_eq [DecidableEq K] (o : Optimizer K V) (fuel : Nat)
    (pop : List (Genome K V)) (rng : Rng) (cur : Cur)
    (pairs : List (ℚ × Genome K V))
    (hp : gradedOf fitness pop = .ok pairs) :
    evolve o fuel pop rng cur =
      match breedLoop o (selectedParents o (sortedSnd pairs) rng cur).1
          (pop.length - (selectedParents o (sortedSnd pairs) rng cur).1.length)
          rng fuel [] (selectedParents o (sortedSnd pairs) rng cur).2 with
      | .error e => .error e
      | .ok none => .ok none
      | .ok (some cc) =>
        .ok (some ((selectedParents o (sortedSnd pairs) rng cur).1 ++ cc.1,
                   cc.2)) := by
  unfold evolve
  rw [hp]

theorem retainLength_retain_one (o : Optimizer K V) (hr : o.retain = 1)
    (n : Nat) : retainLength o n = n := by
  rw [retainLength, hr, mul_one, pyInt, if_pos (by positivity),
    Int.floor_natCast, Int.toNat_natCast]

theorem selectedParents_retain_one {α : Type} (o : Optimizer K V)
    (hr : o.retain = 1) (graded : List α) (rng : Rng) (cur : Cur) :
    selectedParents o graded rng cur = (graded, cur) := by
  rw [selectedParents, retainLength_retain_one o hr, List.drop_length,
    List.take_length, randomSelectAux]

theorem breedLoop_zero_desired [DecidableEq K] (o : Optimizer K V)
    (parents : List (Genome K V)) (rng : Rng) (fuel : Nat) (cur : Cur) :
    breedLoop o parents 0 rng fuel [] cur = .ok (some ([], cur)) := by
  cases fuel <;> rw [breedLoop] <;> simp

/-! ## Claim theorems -/

/-- C3: for every non-empty population whose genomes all have a computed
fitness (losses `ls`), `grade` returns the arithmetic mean of fitness over
the population (for a singleton `[g]` this is `g`'s loss divided by 1, i.e.
its fitness). -/
theorem grade_is_mean (o : Optimizer K V) (pop : List (Genome K V))
    (ls : List ℚ) (h : pop.map Genome.loss = ls.map some) (hne : pop ≠ []) :
    grade o pop = .ok (ls.sum / (ls.length : ℚ)) := by
  rcases pop with _ | ⟨n, rest⟩
  · exact absurd rfl hne
  rcases ls with _ | ⟨l0, ls'⟩
  · simp at h
  simp only [List.map_cons, List.cons.injEq] at h
  obtain ⟨h0, h1⟩ := h
  have hf : fitness n = .ok l0 := by simp [fitness, h0]
  have hlen : rest.length = ls'.length := by
    have := congrArg List.length h1
    simpa using this
  simp only [grade, hf, foldlM_addFitness rest ls' h1 l0]
  rw [List.sum_cons]
  simp [hlen]

theorem grade_is_mean_witness :
    grade o6 [g6, { network := [(0, 7)], loss := some 2 }] =
      .ok (([(1 : ℚ), 2].sum) / (([(1 : ℚ), 2].length : ℚ))) :=
  grade_is_mean o6 [g6, { network := [(0, 7)], loss := some 2 }] [1, 2]
    (by decide) (by decide)

/-- C4: grading the empty population fails, specifically with the
`EmptyPopulation` error (`reduce` over the empty fitness generator raises
before anything else can happen). -/
theorem grade_empty_population (o : Optimizer K V) :
    grade o ([] : List (Genome K V)) = .error .EmptyPopulation := rfl

/-- C9: `fitness` returns the genome's precomputed scalar cost (`loss`)
whenever one was computed, and fails with `FitnessNotComputed` on a genome
that was never evaluated. -/
theorem fitness_loss_spec (g : Genome K V) :
    (∃ c, g.loss = some c ∧ fitness g = .ok c) ∨
    (g.loss = none ∧ fitness g = .error .FitnessNotComputed) := by
  rcases hg : g.loss with _ | c
  · exact Or.inr ⟨rfl, by simp [fitness, hg]⟩
  · exact Or.inl ⟨c, rfl, by simp [fitness, hg]⟩

/-- C6: on every successful call, `mutate` writes exactly one key of the
parameter space — the written value drawn from that key's admissible list
(the spec allows it to coincide with the prior value) — and leaves the value
at every other key, and the loss attribute, unchanged. -/
theorem mutate_changes_exactly_one_key [DecidableEq K] (o : Optimizer K V)
    (g g' : Genome K V) (rng : Rng) (cur cur' : Cur)
    (h : mutate o g rng cur = .ok (g', cur')) :
    ∃ k ∈ o.keys, ∃ cs, lookupK k o.nn_param_choices = some cs ∧
      ∃ v ∈ cs, lookupK k g'.network = some v ∧ g'.loss = g.loss ∧
        ∀ k', k' ≠ k → lookupK k' g'.network = lookupK k' g.network :=
  mutate_spec h

theorem mutate_changes_exactly_one_key_witness :
    ∃ k ∈ o6.keys, ∃ cs, lookupK k o6.nn_param_choices = some cs ∧
      ∃ v ∈ cs,
        lookupK k (({ network := [(0, 7)], loss := some 1 } :
            Genome Nat Int).network) = some v ∧
        ({ network := [(0, 7)], loss := some 1 } :
            Genome Nat Int).loss = g6.loss ∧
        ∀ k', k' ≠ k →
          lookupK k' (({ network := [(0, 7)], loss := some 1 } :
              Genome Nat Int).network) = lookupK k' g6.network :=
  mutate_changes_exactly_one_key o6 g6 { network := [(0, 7)], loss := some 1 }
    rng6 ⟨0, 0⟩ ⟨0, 2⟩ (by decide)

/-- C5, counterexample: with parameter space `{0 : [10, 20, 30]}`,
`A[0] = 10`, `B[0] = 20` and `mutate_chance = 1`, a run of `breed` returns
children whose value at key `0` is `30` — not an element of
`{A[0], B[0]} = {10, 20}` — because the children are mutated inside `breed`
after the crossover. -/
theorem breed_child_value_escapes_parents :
    breed o5 gA gB rng5 ⟨0, 0⟩ =
      .ok ([{ network := [(0, 30)], loss := none },
            { network := [(0, 30)], loss := none }], ⟨2, 6⟩) ∧
    lookupK 0 gA.network = some 10 ∧ lookupK 0 gB.network = some 20 ∧
    (30 : ℤ) ≠ 10 ∧ (30 : ℤ) ≠ 20 := by
  with_unfolding_all decide

/-- C5, amended: `breed(A, B)` returns exactly 2 children, and each child is
either a pure crossover — at every parameter key its value is one of the two
parents' values — or was mutated at exactly one key, whose value then is
some admissible value for that key, all other keys carrying one of the two
parents' values. -/
theorem breed_two_children_values [DecidableEq K] (o : Optimizer K V)
    (A B : Genome K V) (rng : Rng) (cur : Cur)
    (out : List (Genome K V) × Cur) (h : breed o A B rng cur = .ok out) :
    out.1.length = 2 ∧ ∀ g ∈ out.1, ChildOk o A B g := by
  obtain ⟨hlen, hmem⟩ := breedChildren_ok o A B 2 [] rng cur out h
  refine ⟨by simpa using hlen, fun g hg => ?_⟩
  rcases hmem g hg with h1 | h1
  · simp at h1
  · exact h1

theorem breed_two_children_values_witness :
    ([({ network := [(0, 30)], loss := none } : Genome Nat Int),
      { network := [(0, 30)], loss := none }],
     (⟨2, 6⟩ : Cur)).1.length = 2 ∧
    ∀ g ∈ ([({ network := [(0, 30)], loss := none } : Genome Nat Int),
            { network := [(0, 30)], loss := none }],
           (⟨2, 6⟩ : Cur)).1, ChildOk o5 gA gB g :=
  breed_two_children_values o5 gA gB rng5 ⟨0, 0⟩ _ (by with_unfolding_all decide)

/-- `evolve` propagates the failure of the fitness comprehension. -/
theorem evolve_gradedOf_error [DecidableEq K] (o : Optimizer K V)
    (fuel : Nat) (pop : List (Genome K V)) (rng : Rng) (cur : Cur)
    (e : Err) (hp : gradedOf fitness pop = .error e) :
    evolve o fuel pop rng cur = .error e := by
  unfold evolve
  rw [hp]

/-- C7: with `retain = 1` and `random_select = 0`, `evolve` returns exactly
the population sorted ascending by fitness (the same multiset of genomes),
and performs no breeding or mutation: it succeeds with zero loop fuel and
consumes not a single value of the random source (the cursor comes back
unchanged). -/
theorem evolve_full_retain_sorts (o : Optimizer K V) [DecidableEq K]
    (fuel : Nat) (pop : List (Genome K V)) (rng : Rng) (cur : Cur)
    (pairs : List (ℚ × Genome K V))
    (hr : o.retain = 1) (_hs : o.random_select = 0)
    (hp : gradedOf fitness pop = .ok pairs) :
    evolve o fuel pop rng cur = .ok (some (sortedSnd pairs, cur)) ∧
    (sortedSnd pairs).Perm pop ∧
    (sortedSnd pairs).Pairwise (fun a b => cost a ≤ cost b) := by
  obtain ⟨hsnd, hfit⟩ := gradedOf_ok fitness pop pairs hp
  have hlen : (sortedSnd pairs).length = pop.length := by
    rw [sortedSnd_length, ← hsnd, List.length_map]
  refine ⟨?_, ?_, ?_⟩
  · rw [evolve_eq o fuel pop rng cur pairs hp,
      selectedParents_retain_one o hr (sortedSnd pairs) rng cur]
    dsimp only
    rw [show pop.length - (sortedSnd pairs).length = 0 from by omega,
      breedLoop_zero_desired]
    simp
  · exact (sortedSnd_perm pairs).trans (by rw [hsnd])
  · exact sortedSnd_pairwise_cost pairs
      (fun p hp' => (fitness_ok_iff p.2 p.1).mp (hfit p hp'))

theorem evolve_full_retain_sorts_witness :
    evolve o7 0 [g2, g1] rng5 ⟨3, 4⟩ =
      .ok (some (sortedSnd [((2 : ℚ), g2), ((1 : ℚ), g1)], ⟨3, 4⟩)) ∧
    (sortedSnd [((2 : ℚ), g2), ((1 : ℚ), g1)]).Perm [g2, g1] ∧
    (sortedSnd [((2 : ℚ), g2), ((1 : ℚ), g1)]).Pairwise
      (fun a b => cost a ≤ cost b) :=
  evolve_full_retain_sorts o7 0 [g2, g1] rng5 ⟨3, 4⟩
    [((2 : ℚ), g2), ((1 : ℚ), g1)] rfl rfl rfl

/-- C8: selection inside `evolve` ranks the population ascending by cost
(the sorted list is a permutation of the population, pairwise
lower-cost-first), `retain_length` equals `floor(N * retain)`, and the elite
parents `graded[:retain_length]` all have cost at most the cost of every
genome they leave behind — retention selects for minimal, not maximal,
cost. -/
theorem selection_sorted_floor_min (o : Optimizer K V)
    (pop : List (Genome K V)) (pairs : List (ℚ × Genome K V))
    (hp : gradedOf fitness pop = .ok pairs) (hr : 0 ≤ o.retain) :
    (sortedSnd pairs).Perm pop ∧
    (sortedSnd pairs).Pairwise (fun a b => cost a ≤ cost b) ∧
    retainLength o pop.length = (⌊(pop.length : ℚ) * o.retain⌋).toNat ∧
    (∀ p ∈ (sortedSnd pairs).take (retainLength o (sortedSnd pairs).length),
     ∀ q ∈ (sortedSnd pairs).drop (retainLength o (sortedSnd pairs).length),
       cost p ≤ cost q) := by
  obtain ⟨hsnd, hfit⟩ := gradedOf_ok fitness pop pairs hp
  have hpw := sortedSnd_pairwise_cost pairs
    (fun p hp' => (fitness_ok_iff p.2 p.1).mp (hfit p hp'))
  refine ⟨(sortedSnd_perm pairs).trans (by rw [hsnd]), hpw, ?_, ?_⟩
  · rw [retainLength]
    unfold pyInt
    rw [if_pos (mul_nonneg (by positivity) hr)]
  · intro p hp' q hq'
    have hpw' := hpw
    rw [← List.take_append_drop
      (retainLength o (sortedSnd pairs).length) (sortedSnd pairs)] at hpw'
    obtain ⟨-, -, hcross⟩ := List.pairwise_append.mp hpw'
    exact hcross p hp' q hq'

theorem selection_sorted_floor_min_witness :
    (sortedSnd [((2 : ℚ), g2), ((1 : ℚ), g1)]).Perm [g2, g1] ∧
    (sortedSnd [((2 : ℚ), g2), ((1 : ℚ), g1)]).Pairwise
      (fun a b => cost a ≤ cost b) ∧
    retainLength o1 ([g2, g1] : List (Genome Nat Int)).length =
      (⌊(([g2, g1] : List (Genome Nat Int)).length : ℚ) * o1.retain⌋).toNat ∧
    (∀ p ∈ (sortedSnd [((2 : ℚ), g2), ((1 : ℚ), g1)]).take
        (retainLength o1 (sortedSnd [((2 : ℚ), g2), ((1 : ℚ), g1)]).length),
     ∀ q ∈ (sortedSnd [((2 : ℚ), g2), ((1 : ℚ), g1)]).drop
        (retainLength o1 (sortedSnd [((2 : ℚ), g2), ((1 : ℚ), g1)]).length),
       cost p ≤ cost q) :=
  selection_sorted_floor_min o1 [g2, g1] [((2 : ℚ), g2), ((1 : ℚ), g1)] rfl
    (by with_unfolding_all decide)

/-- C2: whenever `evolve` terminates normally, the returned population —
the selected parents concatenated with the bred children, the final child
truncated by the length guard — has exactly the length of the input
population. -/
theorem evolve_preserves_length [DecidableEq K] (o : Optimizer K V)
    (fuel : Nat) (pop : List (Genome K V)) (rng : Rng) (cur : Cur)
    (res : List (Genome K V)) (cur' : Cur)
    (h : evolve o fuel pop rng cur = .ok (some (res, cur'))) :
    res.length = pop.length := by
  cases hp : gradedOf fitness pop with
  | error e =>
    rw [evolve_gradedOf_error o fuel pop rng cur e hp] at h
    exact Except.noConfusion h
  | ok pairs =>
    rw [evolve_eq o fuel pop rng cur pairs hp] at h
    split at h
    · exact Except.noConfusion h
    · exact Option.noConfusion (Except.ok.inj h)
    case h_3 cc hcc =>
      have h2 := Option.some.inj (Except.ok.inj h)
      rw [Prod.mk.injEq] at h2
      obtain ⟨hres, -⟩ := h2
      have hclen : cc.1.length =
          pop.length - (selectedParents o (sortedSnd pairs) rng cur).1.length :=
        breedLoop_some_length o _ _ rng fuel [] _ cc.1 cc.2 (Nat.zero_le _) hcc
      have h4 : (sortedSnd pairs).length = pop.length := by
        rw [sortedSnd_length]
        have := congrArg List.length (gradedOf_ok fitness pop pairs hp).1
        simpa using this
      have hplen :
          (selectedParents o (sortedSnd pairs) rng cur).1.length ≤
            pop.length := by
        have h3 := randomSelectAux_length_le o.random_select
          ((sortedSnd pairs).drop (retainLength o (sortedSnd pairs).length))
          ((sortedSnd pairs).take (retainLength o (sortedSnd pairs).length))
          rng cur
        rw [selectedParents]
        rw [List.length_take, List.length_drop] at h3
        omega
      rw [← hres, List.length_append]
      omega

theorem evolve_preserves_length_witness :
    ([g1, g2, ({ network := [(0, 1)], loss := none } : Genome Nat Int),
      { network := [(0, 2)], loss := none }] :
        List (Genome Nat Int)).length =
      ([g1, g2, g3, g4] : List (Genome Nat Int)).length :=
  evolve_preserves_length o2 9 [g1, g2, g3, g4] rng2 ⟨0, 0⟩
    [g1, g2, { network := [(0, 1)], loss := none },
     { network := [(0, 2)], loss := none }] ⟨4, 4⟩
    (by with_unfolding_all decide)

/-- C1 (the code violates the claim): with a 2-genome population,
`retain = 0.5` and `random_select = 0`, exactly one parent is selected while
one child is still required.  The claim demands that `evolve` detect
`parents_count < 2` before the breeding loop and fail with
`InsufficientParents`; instead the code's loop redraws two indices from
`randint(0, 0)` forever.  In the embedding: for every fuel bound and every
outcome of the random source, `evolve` neither returns a population nor
raises — the loop exhausts any fuel (`.ok none`), i.e. it runs forever. -/
theorem evolve_one_parent_loops_forever (fuel : Nat) (rng : Rng) (cur : Cur) :
    evolve o1 fuel [g2, g1] rng cur = .ok none := by
  have hpairs : gradedOf fitness [g2, g1] =
      .ok [((2 : ℚ), g2), ((1 : ℚ), g1)] := rfl
  have hsort : sortedSnd [((2 : ℚ), g2), ((1 : ℚ), g1)] = [g1, g2] := by
    with_unfolding_all decide
  have hrl : retainLength o1 2 = 1 := by with_unfolding_all decide
  have hsel : selectedParents o1 [g1, g2] rng cur =
      ([g1], ⟨cur.nf + 1, cur.nn⟩) := by
    rw [selectedParents]
    show randomSelectAux o1.random_select
      ([g1, g2].drop (retainLength o1 2)) ([g1, g2].take (retainLength o1 2))
      rng cur = _
    rw [hrl]
    show randomSelectAux (0 : ℚ) [g2] [g1] rng cur = _
    rw [randomSelectAux_zero]
    rfl
  have hb : breedLoop o1 [g1]
      (([g2, g1] : List (Genome Nat Int)).length -
        ([g1] : List (Genome Nat Int)).length)
      rng fuel [] (⟨cur.nf + 1, cur.nn⟩ : Cur) = .ok none :=
    breedLoop_single_parent o1 g1 _ rng fuel [] _ (by decide)
  rw [evolve_eq o1 fuel [g2, g1] rng cur _ hpairs, hsort, hsel]
  dsimp only
  rw [hb]

/-! ## Frame lemmas for the store-level embedding -/

theorem mutateS_frame [DecidableEq K] {o : Optimizer K V} {i : Nat}
    {st st' : Store K V} {rng : Rng} {cur cur' : Cur}
    (h : mutateS o i st rng cur = .ok (st', cur')) :
    st'.next = st.next ∧ ∀ j, j ≠ i → st'.mem j = st.mem j := by
  unfold mutateS at h
  split at h
  · exact Except.noConfusion h
  case h_2 gc hgc =>
    simp only [Except.ok.injEq, Prod.mk.injEq] at h
    obtain ⟨h1, -⟩ := h
    rw [← h1]
    exact ⟨rfl, fun j hj => Function.update_noteq hj _ _⟩

theorem breedChildrenS_frame [DecidableEq K] (o : Optimizer K V)
    (mi fi : Nat) :
    ∀ (count : Nat) (ids : List Nat) (st : Store K V) (rng : Rng) (cur : Cur)
      (out : List Nat × Store K V × Cur)
      (h : breedChildrenS o mi fi count ids st rng cur = .ok out),
      st.next ≤ out.2.1.next ∧
      (∀ j, j < st.next → out.2.1.mem j = st.mem j) ∧
      (∀ j ∈ out.1, j ∈ ids ∨ (st.next ≤ j ∧ j < out.2.1.next))
  | 0, ids, st, rng, cur, out, h => by
    simp only [breedChildrenS, Except.ok.injEq] at h
    subst h
    exact ⟨le_refl _, fun j _ => rfl, fun j hj => Or.inl hj⟩
  | count + 1, ids, st, rng, cur, out, h => by
    unfold breedChildrenS at h
    split at h
    · exact Except.noConfusion h
    case h_2 cc hcc =>
      split at h
      · exact Except.noConfusion h
      case h_2 sc hsc =>
        obtain ⟨ih1, ih2, ih3⟩ := breedChildrenS_frame o mi fi count
          (ids ++ [st.next]) sc.1 rng sc.2 out h
        have hsc' : sc.1.next = st.next + 1 ∧
            ∀ j, j < st.next → sc.1.mem j = st.mem j := by
          split at hsc
          · obtain ⟨m1, m2⟩ := mutateS_frame hsc
            refine ⟨by rw [m1]; rfl, fun j hj => ?_⟩
            rw [m2 j (by omega)]
            exact Function.update_noteq (by omega) _ _
          · injection hsc with hsc2
            rw [← hsc2]
            exact ⟨rfl, fun j hj => Function.update_noteq (by omega) _ _⟩
        obtain ⟨hn1, hm1⟩ := hsc'
        refine ⟨by omega, ?_, ?_⟩
        · intro j hj
          rw [ih2 j (by omega), hm1 j hj]
        · intro j hj
          rcases ih3 j hj with h1 | h1
          · rcases List.mem_append.mp h1 with h2 | h2
            · exact Or.inl h2
            · have h3 := List.mem_singleton.mp h2
              subst h3
              exact Or.inr ⟨le_refl _, by omega⟩
          · exact Or.inr ⟨by omega, h1.2⟩

theorem breedLoopS_frame [DecidableEq K] (o : Optimizer K V)
    (parents : List Nat) (desired : Nat) (rng : Rng) :
    ∀ (fuel : Nat) (children : List Nat) (st : Store K V) (cur : Cur)
      (out : List Nat × Store K V × Cur)
      (h : breedLoopS o parents desired rng fuel children st cur =
        .ok (some out)),
      st.next ≤ out.2.1.next ∧
      (∀ j, j < st.next → out.2.1.mem j = st.mem j) ∧
      (∀ j ∈ out.1, j ∈ children ∨ (st.next ≤ j ∧ j < out.2.1.next))
  | 0, children, st, cur, out, h => by
    rw [breedLoopS] at h
    split at h
    · exact Option.noConfusion (Except.ok.inj h)
    · have h2 := Option.some.inj (Except.ok.inj h)
      rw [← h2]
      exact ⟨le_refl _, fun j _ => rfl, fun j hj => Or.inl hj⟩
  | fuel + 1, children, st, cur, out, h => by
    rw [breedLoopS] at h
    split at h
    case isTrue hlt =>
      split at h
      · exact Except.noConfusion h
      case h_2 mc hmc =>
        split at h
        · exact Except.noConfusion h
        case h_2 fc hfc =>
          split at h
          case isTrue hne =>
            split at h
            case h_1 male female hm hf =>
              split at h
              · exact Except.noConfusion h
              case h_2 bc hbc =>
                obtain ⟨ih1, ih2, ih3⟩ := breedLoopS_frame o parents desired
                  rng fuel (appendBabies desired children bc.1) bc.2.1 bc.2.2
                  out h
                obtain ⟨b1, b2, b3⟩ := breedChildrenS_frame o male female 2
                  [] st rng fc.2 bc hbc
                refine ⟨by omega, ?_, ?_⟩
                · intro j hj
                  rw [ih2 j (by omega), b2 j hj]
                · intro j hj
                  rcases ih3 j hj with h1 | h1
                  · rcases appendBabies_mem desired bc.1 children j h1
                      with h2 | h2
                    · exact Or.inl h2
                    · rcases b3 j h2 with h3 | h3
                      · exact absurd h3 (List.not_mem_nil j)
                      · exact Or.inr ⟨h3.1, by omega⟩
                  · exact Or.inr ⟨by omega, h1.2⟩
            all_goals exact Except.noConfusion h
          case isFalse =>
            exact breedLoopS_frame o parents desired rng fuel children st
              fc.2 out h
    case isFalse =>
      have h2 := Option.some.inj (Except.ok.inj h)
      rw [← h2]
      exact ⟨le_refl _, fun j _ => rfl, fun j hj => Or.inl hj⟩

/-- Unfolding `evolveS` once the fitness comprehension has succeeded. -/
theorem evolveS_eq [DecidableEq K] (o : Optimizer K V) (fuel : Nat)
    (popIds : List Nat) (st : Store K V) (rng : Rng) (cur : Cur)
    (pairs : List (ℚ × Nat))
    (hp : gradedOf (fun i => fitness (st.mem i)) popIds = .ok pairs) :
    evolveS o fuel popIds st rng cur =
      match breedLoopS o (selectedParents o (sortedSnd pairs) rng cur).1
          (popIds.length -
            (selectedParents o (sortedSnd pairs) rng cur).1.length)
          rng fuel [] st (selectedParents o (sortedSnd pairs) rng cur).2 with
      | .error e => .error e
      | .ok none => .ok none
      | .ok (some cc) =>
        .ok (some ((selectedParents o (sortedSnd pairs) rng cur).1 ++ cc.1,
                   cc.2.1, cc.2.2)) := by
  unfold evolveS
  rw [hp]

theorem selectedParents_mem {α : Type} (o : Optimizer K V) (graded : List α)
    (rng : Rng) (cur : Cur) (y : α)
    (h : y ∈ (selectedParents o graded rng cur).1) : y ∈ graded := by
  rw [selectedParents] at h
  rcases randomSelectAux_mem o.random_select _ _ rng cur y h with h1 | h1
  · exact List.take_subset _ _ h1
  · exact List.drop_subset _ _ h1

/-- `evolveS` propagates the failure of the fitness comprehension. -/
theorem evolveS_gradedOf_error [DecidableEq K] (o : Optimizer K V)
    (fuel : Nat) (popIds : List Nat) (st : Store K V) (rng : Rng) (cur : Cur)
    (e : Err)
    (hp : gradedOf (fun i => fitness (st.mem i)) popIds = .error e) :
    evolveS o fuel popIds st rng cur = .error e := by
  unfold evolveS
  rw [hp]

/-- C10: a run of `evolve` over the explicit heap never writes to any
pre-existing object: every address below the allocation watermark — in
particular every genome of the input population — holds exactly the same
genome (same parameter mapping, same loss) afterwards.  Every address of the
returned population is either an input address (a retained parent, returned
as-is) or a freshly allocated child at or above the old watermark, so the
mutation inside `breed` writes only to freshly constructed children, never
to a parent genome. -/
theorem evolveS_preserves_input_genomes [DecidableEq K] (o : Optimizer K V)
    (fuel : Nat) (popIds : List Nat) (st : Store K V) (rng : Rng) (cur : Cur)
    (out : List Nat × Store K V × Cur)
    (h : evolveS o fuel popIds st rng cur = .ok (some out)) :
    (∀ j, j < st.next → out.2.1.mem j = st.mem j) ∧
    st.next ≤ out.2.1.next ∧
    (∀ j ∈ out.1, j ∈ popIds ∨ (st.next ≤ j ∧ j < out.2.1.next)) := by
  cases hp : gradedOf (fun i => fitness (st.mem i)) popIds with
  | error e =>
    rw [evolveS_gradedOf_error o fuel popIds st rng cur e hp] at h
    exact Except.noConfusion h
  | ok pairs =>
    rw [evolveS_eq o fuel popIds st rng cur pairs hp] at h
    split at h
    · exact Except.noConfusion h
    · exact Option.noConfusion (Except.ok.inj h)
    case h_3 cc hcc =>
      have hout := Option.some.inj (Except.ok.inj h)
      obtain ⟨l1, l2, l3⟩ := breedLoopS_frame o _ _ rng fuel [] st _ cc hcc
      have hsnd := (gradedOf_ok (fun i => fitness (st.mem i)) popIds pairs hp).1
      subst hout
      refine ⟨l2, l1, ?_⟩
      intro j hj
      rcases List.mem_append.mp hj with h1 | h1
      · refine Or.inl ?_
        have h2 := selectedParents_mem o (sortedSnd pairs) rng cur j h1
        have h3 := (sortedSnd_perm pairs).subset h2
        rw [hsnd] at h3
        exact h3
      · rcases l3 j h1 with h2 | h2
        · exact absurd h2 (List.not_mem_nil j)
        · exact Or.inr h2

theorem evolveS_preserves_input_genomes_witness :
    (∀ j, j < st10.next → st10.mem j = st10.mem j) ∧
    st10.next ≤ st10.next ∧
    (∀ j ∈ ([1, 0] : List Nat), j ∈ ([0, 1] : List Nat) ∨
      (st10.next ≤ j ∧ j < st10.next)) :=
  evolveS_preserves_input_genomes o7 0 [0, 1] st10 rng5 ⟨0, 0⟩
    ([1, 0], st10, ⟨0, 0⟩) (by with_unfolding_all rfl)

end GA
